import Mathlib

/-!
Shallow embedding of `nsrlex.py` (NSRL hashsets extractor).

Modelling conventions:
* a file is a list of lines; a line is the raw character list of the text
  line, line terminator included (Python file iteration keeps the `\n`);
* `str.split(',')` is embedded as `pySplit` (naive single-character split,
  no quoting — exactly what the Python does);
* Python truthiness of the two output path arguments is embedded as two
  booleans `g` (good output requested) and `b` (bad output requested);
* an uncaught `IndexError` on a short row is embedded as `none`
  (`Option`-valued folds propagate the fault, aborting the run);
* `show_summary`'s float percentages are embedded over `ℚ`; Python's
  `ZeroDivisionError` is embedded as `none` in `pyDiv`;
* `write_output` returns, for each of the two output files, `none` when the
  file is never opened/created, and `some content` when it is created with
  exactly `content` written to it.
-/

namespace Nsrlex

/-- Raw text of one input line, terminator included. -/
abbrev Line := List Char

/-- One comma-delimited field of a line. -/
abbrev Field := List Char

/-- Embedding of Python `str.split(sep)` for a one-character separator:
accumulates the current field and cuts at each separator occurrence. -/
def splitAux (sep : Char) : List Char → List Char → List Field
  | [], acc => [acc.reverse]
  | c :: cs, acc =>
    if c = sep then acc.reverse :: splitAux sep cs [] else splitAux sep cs (c :: acc)

/-- Embedding of `sLine.split(',')` as used for both catalog and hash-set rows. -/
def pySplit (l : Line) : List Field := splitAux ',' l []

/-- Embedding of Python `haystack.index(needle)` wrapped in try/except:
`none` stands for the caught `ValueError` (Python sets `i = -1`). -/
def list_index : List Field → Field → Option Nat
  | [], _ => none
  | x :: xs, n => if x = n then some 0 else (list_index xs n).map (· + 1)

/-- Embedding of `in_array(sNeedle, aHaystack)` from `nsrlex.py`:
`True` exactly when `.index` did not raise. -/
def in_array (sNeedle : Field) (aHaystack : List Field) : Bool :=
  match list_index aHaystack sNeedle with
  | none => false
  | some _ => true

/-- Boolean test that `needle` is a leading segment of `hay`
(helper for the embedding of Python `str.find`). -/
def startsW : List Char → List Char → Bool
  | _, [] => true
  | [], _ :: _ => false
  | h :: hs, n :: ns => (h = n) && startsW hs ns

/-- Embedding of the Python test `hay.find(needle) != -1`: does `needle`
occur contiguously (case-sensitively) anywhere in `hay`? -/
def findSub : List Char → List Char → Bool
  | [], needle => startsW [] needle
  | h :: hs, needle => startsW (h :: hs) needle || findSub hs needle

/-- The marker substring `'Hacker Tool'` from `index_hacker_tool_entries`. -/
def markerHT : List Char := "Hacker Tool".toList

/-- Embedding of one iteration of the catalog loop in
`index_hacker_tool_entries`: split the row, index field 6 (faulting with
`none` on a short row, as the Python `IndexError` would), and append field 0
when the marker occurs in field 6 and field 0 is not already collected. -/
def indexLine (aHackerTools : List Field) (sNSRLProdEntry : Line) : Option (List Field) :=
  let aNSRLProdEntry := pySplit sNSRLProdEntry
  match aNSRLProdEntry.get? 6 with
  | none => none
  | some f6 =>
    if findSub f6 markerHT && !(in_array (aNSRLProdEntry.getD 0 []) aHackerTools) then
      some (aHackerTools ++ [aNSRLProdEntry.getD 0 []])
    else
      some aHackerTools

/-- The inner (per-line) catalog loop of `index_hacker_tool_entries`. -/
def indexLines (aHackerTools : List Field) : List Line → Option (List Field)
  | [] => some aHackerTools
  | l :: ls =>
    match indexLine aHackerTools l with
    | none => none
    | some acc₂ => indexLines acc₂ ls

/-- The outer (per-file) catalog loop of `index_hacker_tool_entries`. -/
def indexFiles (aHackerTools : List Field) : List (List Line) → Option (List Field)
  | [] => some aHackerTools
  | f :: fs =>
    match indexLines aHackerTools f with
    | none => none
    | some acc₂ => indexFiles acc₂ fs

/-- Embedding of `index_hacker_tool_entries`: fold the catalog files, in
argument order, through the per-line indexing step, starting from `[]`. -/
def index_hacker_tool_entries (files : List (List Line)) : Option (List Field) :=
  indexFiles [] files

/-- The two logical output collections built by `filter_entries`
(`aEntries = {'good': [], 'bad': []}`). -/
structure Entries where
  good : List Line
  bad : List Line
deriving DecidableEq

/-- Embedding of one iteration of the hash-set loop in `filter_entries`:
split the row, index field 5 (faulting with `none` on a short row), then
run the `if not in_array(...) and sGood / elif sBad` cascade. -/
def filterLine (aHackerTools : List Field) (g b : Bool) (aEntries : Entries)
    (sNSRLEntry : Line) : Option Entries :=
  let aNSRLLine := pySplit sNSRLEntry
  match aNSRLLine.get? 5 with
  | none => none
  | some f5 =>
    if !(in_array f5 aHackerTools) && g then
      some { aEntries with good := aEntries.good ++ [sNSRLEntry] }
    else if b then
      some { aEntries with bad := aEntries.bad ++ [sNSRLEntry] }
    else
      some aEntries

/-- The inner (per-line) hash-set loop of `filter_entries`. -/
def runLines (aHackerTools : List Field) (g b : Bool) (aEntries : Entries) :
    List Line → Option Entries
  | [] => some aEntries
  | l :: ls =>
    match filterLine aHackerTools g b aEntries l with
    | none => none
    | some acc₂ => runLines aHackerTools g b acc₂ ls

/-- The outer (per-file) hash-set loop of `filter_entries`. -/
def runFiles (aHackerTools : List Field) (g b : Bool) (aEntries : Entries) :
    List (List Line) → Option Entries
  | [] => some aEntries
  | f :: fs =>
    match runLines aHackerTools g b aEntries f with
    | none => none
    | some acc₂ => runFiles aHackerTools g b acc₂ fs

/-- Embedding of `filter_entries`: fold the hash-set files, in argument
order, through the per-line classification step, starting from empty
`good`/`bad` collections. -/
def filter_entries (files : List (List Line)) (aHackerTools : List Field)
    (g b : Bool) : Option Entries :=
  runFiles aHackerTools g b ⟨[], []⟩ files

/-- Embedding of `write_output`: for each output file, `none` when the path
was not supplied (the file is never opened or created), otherwise `some`
of the exact byte content written — the concatenation of the collected raw
lines, in collection order. -/
def write_output (aEntries : Entries) (g b : Bool) : Option Line × Option Line :=
  ((if g then some aEntries.good.flatten else none),
   (if b then some aEntries.bad.flatten else none))

/-- Embedding of Python float division, whose division by zero raises
`ZeroDivisionError` (here: `none`). -/
def pyDiv (a b : ℚ) : Option ℚ :=
  if b = 0 then none else some (a / b)

/-- Embedding of `show_summary`'s percentage computation
(`(1.0*len/total)*100` for each bucket): `none` models the run aborting
with the uncaught `ZeroDivisionError`. -/
def show_summary (aEntries : Entries) : Option (ℚ × ℚ) :=
  let iKnownGoodLength : ℚ := aEntries.good.length
  let iKnownBadLength : ℚ := aEntries.bad.length
  let iTotalLength : ℚ := iKnownGoodLength + iKnownBadLength
  match pyDiv iKnownGoodLength iTotalLength, pyDiv iKnownBadLength iTotalLength with
  | some qg, some qb => some (qg * 100, qb * 100)
  | _, _ => none

/-- Field 5 of a hash-set row (the product identifier tested by the
classifier); defaults to `[]` on a short row (the real code faults there,
and all theorems using this accessor carry a success hypothesis ruling the
short row out). -/
def field5 (l : Line) : Field := ((pySplit l).get? 5).getD []

/-- Field 0 of a catalog row (the candidate product identifier). -/
def field0 (l : Line) : Field := (pySplit l).getD 0 []

/-- Field 6 of a catalog row (the category label); defaults to `[]` on a
short row. -/
def field6 (l : Line) : Field := ((pySplit l).get? 6).getD []

/-- The condition under which `filter_entries` appends a row to `good`. -/
def goodPred (aHackerTools : List Field) (g : Bool) (l : Line) : Bool :=
  !(in_array (field5 l) aHackerTools) && g

/-- The condition under which `filter_entries` appends a row to `bad`. -/
def badPred (aHackerTools : List Field) (g b : Bool) (l : Line) : Bool :=
  !(goodPred aHackerTools g l) && b

/-! Helper lemmas about the embedded primitives. -/

theorem list_index_eq_none_iff (x : Field) (l : List Field) :
    list_index l x = none ↔ x ∉ l := by
  induction l with
  | nil => simp [list_index]
  | cons h t ih =>
    by_cases hx : h = x
    · subst hx; simp [list_index]
    · simp only [list_index, if_neg hx, Option.map_eq_none', ih, List.mem_cons, not_or]
      constructor
      · intro hn
        exact ⟨fun he => hx he.symm, hn⟩
      · intro hn
        exact hn.2

theorem in_array_eq_true_iff (x : Field) (l : List Field) :
    in_array x l = true ↔ x ∈ l := by
  unfold in_array
  cases hlt : list_index l x with
  | none =>
    simpa using (list_index_eq_none_iff x l).mp hlt
  | some i =>
    have : x ∈ l := by
      by_contra hmem
      rw [(list_index_eq_none_iff x l).mpr hmem] at hlt
      cases hlt
    simpa using this

theorem startsW_eq_true_iff (hay needle : List Char) :
    startsW hay needle = true ↔ needle <+: hay := by
  induction needle generalizing hay with
  | nil =>
    cases hay <;> simp [startsW, List.nil_prefix]
  | cons n ns ih =>
    cases hay with
    | nil => simp [startsW, List.prefix_nil]
    | cons h hs =>
      simp only [startsW, Bool.and_eq_true, decide_eq_true_eq, ih, List.cons_prefix_cons]
      constructor
      · rintro ⟨he, hp⟩; exact ⟨he.symm, hp⟩
      · rintro ⟨he, hp⟩; exact ⟨he.symm, hp⟩

theorem findSub_eq_true_iff (hay needle : List Char) :
    findSub hay needle = true ↔ needle <:+: hay := by
  induction hay with
  | nil =>
    cases needle <;> simp [findSub, startsW, List.infix_nil]
  | cons h hs ih =>
    rw [List.infix_cons_iff]
    simp [findSub, startsW_eq_true_iff, ih]

/-- Unfolding of the per-row classification: on a row with at least 6 fields
the step succeeds and appends the row to the bucket chosen by
`goodPred`/`badPred`; on a shorter row it faults. -/
theorem filterLine_eq (tools : List Field) (g b : Bool) (acc : Entries) (l : Line) :
    filterLine tools g b acc l =
      if 6 ≤ (pySplit l).length then
        some { good := acc.good ++ if goodPred tools g l then [l] else [],
               bad := acc.bad ++ if badPred tools g b l then [l] else [] }
      else none := by
  by_cases hlen : 6 ≤ (pySplit l).length
  · obtain ⟨f5, h5⟩ : ∃ f5, (pySplit l).get? 5 = some f5 := by
      cases h : (pySplit l).get? 5 with
      | none => exact absurd (List.get?_eq_none.mp h) (by omega)
      | some f5 => exact ⟨f5, rfl⟩
    have hfield : field5 l = f5 := by unfold field5; rw [h5]; rfl
    rw [if_pos hlen]
    simp only [filterLine, h5]
    cases hc : (!(in_array f5 tools) && g) with
    | true =>
      have hgp : goodPred tools g l = true := by rw [goodPred, hfield]; exact hc
      have hbp : badPred tools g b l = false := by rw [badPred, hgp]; rfl
      simp [hc, hgp, hbp]
    | false =>
      have hgp : goodPred tools g l = false := by rw [goodPred, hfield]; exact hc
      have hbp : badPred tools g b l = b := by rw [badPred, hgp]; rfl
      cases b <;> simp [hc, hgp, hbp]
  · have h5 : (pySplit l).get? 5 = none := List.get?_eq_none.mpr (by omega)
    rw [if_neg hlen]
    simp only [filterLine, h5]

/-- Characterization of the inner hash-set loop: a successful run extends
the two buckets with exactly the input lines satisfying `goodPred` and
`badPred` respectively, in input order. -/
theorem runLines_eq_some (tools : List Field) (g b : Bool) :
    ∀ (L : List Line) (acc e : Entries), runLines tools g b acc L = some e →
      e.good = acc.good ++ L.filter (goodPred tools g) ∧
      e.bad = acc.bad ++ L.filter (badPred tools g b) := by
  intro L
  induction L with
  | nil =>
    intro acc e h
    simp only [runLines, Option.some.injEq] at h
    subst h
    simp
  | cons l ls ih =>
    intro acc e h
    simp only [runLines] at h
    cases hf : filterLine tools g b acc l with
    | none => rw [hf] at h; cases h
    | some a₂ =>
      rw [hf] at h
      obtain ⟨hg, hb⟩ := ih a₂ e h
      rw [filterLine_eq] at hf
      by_cases hlen : 6 ≤ (pySplit l).length
      · rw [if_pos hlen] at hf
        injection hf with hf
        subst hf
        refine ⟨?_, ?_⟩
        · rw [hg]
          by_cases hgp : goodPred tools g l = true
          · simp [List.filter_cons, hgp]
          · simp only [Bool.not_eq_true] at hgp
            simp [List.filter_cons, hgp]
        · rw [hb]
          by_cases hbp : badPred tools g b l = true
          · simp [List.filter_cons, hbp]
          · simp only [Bool.not_eq_true] at hbp
            simp [List.filter_cons, hbp]
      · rw [if_neg hlen] at hf
        cases hf

theorem runLines_append (tools : List Field) (g b : Bool) (xs ys : List Line) :
    ∀ acc, runLines tools g b acc (xs ++ ys) =
      match runLines tools g b acc xs with
      | none => none
      | some a₂ => runLines tools g b a₂ ys := by
  induction xs with
  | nil => intro acc; simp [runLines]
  | cons l ls ih =>
    intro acc
    simp only [List.cons_append, runLines]
    cases filterLine tools g b acc l with
    | none => rfl
    | some a₂ => exact ih a₂

/-- The nested per-file/per-line loops of `filter_entries` are equivalent to
one pass over all lines concatenated in file-argument order. -/
theorem runFiles_eq_runLines_flatten (tools : List Field) (g b : Bool) :
    ∀ (files : List (List Line)) (acc : Entries),
      runFiles tools g b acc files = runLines tools g b acc files.flatten := by
  intro files
  induction files with
  | nil => intro acc; simp [runFiles, runLines]
  | cons f fs ih =>
    intro acc
    simp only [runFiles, List.flatten_cons, runLines_append]
    cases runLines tools g b acc f with
    | none => rfl
    | some a₂ => exact ih a₂

/-- Characterization of `filter_entries` on success: `good` and `bad` are
the `goodPred`/`badPred` filters of all input lines in encounter order. -/
theorem filter_entries_eq_some (files : List (List Line)) (tools : List Field)
    (g b : Bool) (e : Entries) (h : filter_entries files tools g b = some e) :
    e.good = files.flatten.filter (goodPred tools g) ∧
    e.bad = files.flatten.filter (badPred tools g b) := by
  unfold filter_entries at h
  rw [runFiles_eq_runLines_flatten] at h
  simpa using runLines_eq_some tools g b files.flatten ⟨[], []⟩ e h

theorem indexLines_append (xs ys : List Line) :
    ∀ acc, indexLines acc (xs ++ ys) =
      match indexLines acc xs with
      | none => none
      | some a₂ => indexLines a₂ ys := by
  induction xs with
  | nil => intro acc; simp [indexLines]
  | cons l ls ih =>
    intro acc
    simp only [List.cons_append, indexLines]
    cases indexLine acc l with
    | none => rfl
    | some a₂ => exact ih a₂

/-- The nested per-file/per-line loops of `index_hacker_tool_entries` are
equivalent to one pass over all catalog lines in file-argument order. -/
theorem indexFiles_eq_indexLines_flatten :
    ∀ (files : List (List Line)) (acc : List Field),
      indexFiles acc files = indexLines acc files.flatten := by
  intro files
  induction files with
  | nil => intro acc; simp [indexFiles, indexLines]
  | cons f fs ih =>
    intro acc
    simp only [indexFiles, List.flatten_cons, indexLines_append]
    cases indexLines acc f with
    | none => rfl
    | some a₂ => exact ih a₂

/-- A line on which the per-line step faults for every accumulator makes the
whole inner classification loop fault (the `IndexError` aborts the run). -/
theorem runLines_eq_none_of_mem (tools : List Field) (g b : Bool) (x : Line)
    (hx : ∀ acc, filterLine tools g b acc x = none) :
    ∀ (L : List Line) (acc : Entries), x ∈ L → runLines tools g b acc L = none := by
  intro L
  induction L with
  | nil => intro acc hmem; cases hmem
  | cons l ls ih =>
    intro acc hmem
    rcases List.mem_cons.mp hmem with hxl | hxs
    · subst hxl
      simp [runLines, hx acc]
    · simp only [runLines]
      cases filterLine tools g b acc l with
      | none => rfl
      | some a₂ => exact ih a₂ hxs

/-- A line on which the per-line step faults for every accumulator makes the
whole inner indexing loop fault. -/
theorem indexLines_eq_none_of_mem (x : Line)
    (hx : ∀ acc, indexLine acc x = none) :
    ∀ (L : List Line) (acc : List Field), x ∈ L → indexLines acc L = none := by
  intro L
  induction L with
  | nil => intro acc hmem; cases hmem
  | cons l ls ih =>
    intro acc hmem
    rcases List.mem_cons.mp hmem with hxl | hxs
    · subst hxl
      simp [indexLines, hx acc]
    · simp only [indexLines]
      cases indexLine acc l with
      | none => rfl
      | some a₂ => exact ih a₂ hxs

/-- The per-line indexing step never removes collected identifiers and only
ever appends the row's field 0; dedup keeps the accumulator duplicate-free. -/
theorem indexLine_some (acc : List Field) (l : Line) (a₂ : List Field)
    (h : indexLine acc l = some a₂) :
    (a₂ = acc ∨ a₂ = acc ++ [field0 l]) ∧
    (acc.Nodup → a₂.Nodup) ∧
    (field0 l ∈ a₂ ↔ (findSub (field6 l) markerHT = true ∨ field0 l ∈ acc)) := by
  simp only [indexLine] at h
  have h6 : (pySplit l).get? 6 = some (field6 l) := by
    cases h6' : (pySplit l).get? 6 with
    | none => rw [h6'] at h; cases h
    | some f6 => unfold field6; rw [h6']; rfl
  have hf0 : (pySplit l).getD 0 [] = field0 l := rfl
  rw [h6] at h
  simp only [] at h
  cases hc : (findSub (field6 l) markerHT && !(in_array ((pySplit l).getD 0 []) acc)) with
  | true =>
    rw [if_pos hc] at h
    injection h with h
    subst h
    obtain ⟨hfind, hnotin⟩ := Bool.and_eq_true_iff.mp hc
    have hmem : field0 l ∉ acc := by
      rw [← in_array_eq_true_iff]
      rw [hf0] at hnotin
      simp only [Bool.not_eq_true'] at hnotin
      simp [hnotin]
    refine ⟨Or.inr (by rw [hf0]), ?_, ?_⟩
    · intro hnd
      rw [hf0, List.nodup_append]
      exact ⟨hnd, List.nodup_singleton _, by simpa [List.disjoint_singleton] using hmem⟩
    · rw [hf0]
      simp [hfind]
  | false =>
    have hnc : ¬ ((findSub (field6 l) markerHT && !(in_array ((pySplit l).getD 0 []) acc)) = true) := by
      intro hcontra
      rw [hc] at hcontra
      cases hcontra
    rw [if_neg hnc] at h
    injection h with h
    subst h
    refine ⟨Or.inl rfl, fun hnd => hnd, ?_⟩
    cases hfind : findSub (field6 l) markerHT with
    | false => simp [hfind]
    | true =>
      have hin : in_array ((pySplit l).getD 0 []) acc = true := by
        cases hin' : in_array ((pySplit l).getD 0 []) acc with
        | true => rfl
        | false => rw [hfind, hin'] at hc; simp at hc
      have hmem : field0 l ∈ acc := (in_array_eq_true_iff _ _).mp (hf0 ▸ hin)
      simp [hfind, hmem]

/-- Success of the inner indexing loop preserves freedom from duplicates. -/
theorem indexLines_nodup :
    ∀ (L : List Line) (acc r : List Field), indexLines acc L = some r →
      acc.Nodup → r.Nodup := by
  intro L
  induction L with
  | nil =>
    intro acc r h hnd
    simp only [indexLines, Option.some.injEq] at h
    subst h
    exact hnd
  | cons l ls ih =>
    intro acc r h hnd
    simp only [indexLines] at h
    cases hf : indexLine acc l with
    | none => rw [hf] at h; cases h
    | some a₂ =>
      rw [hf] at h
      exact ih a₂ r h ((indexLine_some acc l a₂ hf).2.1 hnd)

/-! Theorems for the claims. -/

/-- Claim C3: for every list of catalog files, the flagged-product set
produced by the indexer contains each product identifier at most once, no
matter how many catalog rows assert that identifier. -/
theorem C3_flagged_set_nodup (files : List (List Line)) (tools : List Field)
    (h : index_hacker_tool_entries files = some tools) : tools.Nodup := by
  unfold index_hacker_tool_entries at h
  rw [indexFiles_eq_indexLines_flatten] at h
  exact indexLines_nodup files.flatten [] tools h List.nodup_nil

/-- Witness for C3: a catalog asserting `P002` twice still yields a
duplicate-free flagged set. -/
theorem C3_flagged_set_nodup_witness : List.Nodup ["P002".toList] :=
  C3_flagged_set_nodup
    [["P002,a,b,c,d,e,Hacker Tool".toList, "P002,a,b,c,d,e,Hacker Tool".toList]]
    ["P002".toList] (by decide)

/-- Claim C4: for every catalog row with at least 7 comma-separated fields,
the indexer selects the row's field 0 as a flagged identifier exactly when
field 6 contains the marker `'Hacker Tool'` as a case-sensitive contiguous
substring (here: `markerHT <:+: field6 l`), not an exact or tokenized match. -/
theorem C4_marker_substring_selects_field0 (acc : List Field) (l : Line)
    (h7 : 7 ≤ (pySplit l).length) :
    (indexLine acc l).isSome = true ∧
    ∀ a₂, indexLine acc l = some a₂ →
      (field0 l ∈ a₂ ↔ (markerHT <:+: field6 l ∨ field0 l ∈ acc)) := by
  obtain ⟨f6, h6⟩ : ∃ f6, (pySplit l).get? 6 = some f6 := by
    cases h : (pySplit l).get? 6 with
    | none => exact absurd (List.get?_eq_none.mp h) (by omega)
    | some f6 => exact ⟨f6, rfl⟩
  have hsome : (indexLine acc l).isSome = true := by
    simp only [indexLine, h6]
    split <;> rfl
  refine ⟨hsome, ?_⟩
  intro a₂ ha
  have hiff := (indexLine_some acc l a₂ ha).2.2
  rw [hiff, findSub_eq_true_iff]

/-- Witness for C4: the label `'Hacker Tool / Utility'` is selected as a
substring match on a fresh accumulator. -/
theorem C4_marker_substring_selects_field0_witness :
    field0 "P002,a,b,c,d,e,Hacker Tool / Utility".toList ∈ ["P002".toList] ↔
      (markerHT <:+: field6 "P002,a,b,c,d,e,Hacker Tool / Utility".toList ∨
       field0 "P002,a,b,c,d,e,Hacker Tool / Utility".toList ∈ ([] : List Field)) :=
  (C4_marker_substring_selects_field0 [] "P002,a,b,c,d,e,Hacker Tool / Utility".toList
    (by decide)).2 ["P002".toList] (by decide)

/-- Claim C7: a catalog row with fewer than 7 fields, or a hash-set row
with fewer than 6 fields, is indexed at the fixed position unconditionally,
so the whole run faults (returns `none`) rather than skipping the row. -/
theorem C7_short_rows_fault :
    (∀ (files : List (List Line)) (l : Line), l ∈ files.flatten →
      (pySplit l).length < 7 → index_hacker_tool_entries files = none) ∧
    (∀ (files : List (List Line)) (tools : List Field) (g b : Bool) (l : Line),
      l ∈ files.flatten → (pySplit l).length < 6 →
      filter_entries files tools g b = none) := by
  constructor
  · intro files l hmem hshort
    unfold index_hacker_tool_entries
    rw [indexFiles_eq_indexLines_flatten]
    refine indexLines_eq_none_of_mem l ?_ files.flatten [] hmem
    intro acc
    have h6 : (pySplit l).get? 6 = none := List.get?_eq_none.mpr (by omega)
    simp only [indexLine, h6]
  · intro files tools g b l hmem hshort
    unfold filter_entries
    rw [runFiles_eq_runLines_flatten]
    refine runLines_eq_none_of_mem tools g b l ?_ files.flatten ⟨[], []⟩ hmem
    intro acc
    have hn : ¬ 6 ≤ (pySplit l).length := by omega
    rw [filterLine_eq, if_neg hn]

/-- Witness for C7: a 2-field catalog row and a 1-field hash-set row each
abort their run. -/
theorem C7_short_rows_fault_witness :
    index_hacker_tool_entries [["a,b".toList]] = none ∧
    filter_entries [["a".toList]] [] true true = none :=
  ⟨C7_short_rows_fault.1 [["a,b".toList]] "a,b".toList (by decide) (by decide),
   C7_short_rows_fault.2 [["a".toList]] [] true true "a".toList (by decide) (by decide)⟩

/-- Counterexample to claim C1 as stated: with the good output NOT requested
and the bad output requested, a row whose field 5 is absent from the (empty)
flagged set is nevertheless classified `bad`, so the decision "bad iff
flagged" does not hold regardless of which output was requested. -/
theorem C1_counterexample_good_unset :
    filter_entries [["h2,x,x,x,x,P009".toList]] [] false true =
      some ⟨[], ["h2,x,x,x,x,P009".toList]⟩ ∧
    in_array (field5 "h2,x,x,x,x,P009".toList) [] = false := by
  constructor
  · decide
  · decide

/-- Claim C1 (amended): for every run in which the good output IS requested,
a hash-set row is classified `bad` iff its field 5 value is in the flagged
set (and the bad output was requested — that branch is a no-op otherwise),
and it falls through to `good` exactly when its field 5 is not flagged;
this holds regardless of whether the bad output was requested. -/
theorem C1_bad_iff_flagged_when_good_requested (files : List (List Line))
    (tools : List Field) (b : Bool) (e : Entries)
    (h : filter_entries files tools true b = some e) :
    e.bad = files.flatten.filter (fun l => in_array (field5 l) tools && b) ∧
    e.good = files.flatten.filter (fun l => !(in_array (field5 l) tools)) := by
  obtain ⟨hg, hb⟩ := filter_entries_eq_some files tools true b e h
  constructor
  · rw [hb]
    have hpe : badPred tools true b = fun l => in_array (field5 l) tools && b := by
      funext l
      simp [badPred, goodPred]
    rw [hpe]
  · rw [hg]
    have hpe : goodPred tools true = fun l => !(in_array (field5 l) tools) := by
      funext l
      simp [goodPred]
    rw [hpe]

/-- Witness for the amended C1: with good requested, exactly the `P002` row
(the flagged one) lands in `bad`. -/
theorem C1_bad_iff_flagged_when_good_requested_witness :
    (Entries.mk ["h1,a,b,c,d,P001".toList] ["h2,a,b,c,d,P002".toList]).bad =
      ([["h1,a,b,c,d,P001".toList, "h2,a,b,c,d,P002".toList]] :
        List (List Line)).flatten.filter
          (fun l => in_array (field5 l) ["P002".toList] && true) :=
  (C1_bad_iff_flagged_when_good_requested
    [["h1,a,b,c,d,P001".toList, "h2,a,b,c,d,P002".toList]] ["P002".toList] true
    ⟨["h1,a,b,c,d,P001".toList], ["h2,a,b,c,d,P002".toList]⟩ (by decide)).1

/-- Claim C2: with both outputs requested, every processed row lands in
exactly one bucket: the bucket sizes sum to the total number of rows read,
and no row appears in both buckets. -/
theorem C2_partition_total_and_disjoint (files : List (List Line))
    (tools : List Field) (e : Entries)
    (h : filter_entries files tools true true = some e) :
    e.good.length + e.bad.length = files.flatten.length ∧
    ∀ l ∈ e.good, l ∉ e.bad := by
  obtain ⟨hg, hb⟩ := filter_entries_eq_some files tools true true e h
  have hbp : badPred tools true true = fun l => !(goodPred tools true l) := by
    funext l
    simp [badPred]
  constructor
  · rw [hg, hb, hbp]
    exact (List.length_eq_length_filter_add (goodPred tools true)).symm
  · intro l hlg hlb
    rw [hg] at hlg
    rw [hb, hbp] at hlb
    have h1 := (List.mem_filter.mp hlg).2
    have h2 := (List.mem_filter.mp hlb).2
    simp [h1] at h2

/-- Witness for C2: two rows, one flagged, split one-and-one. -/
theorem C2_partition_total_and_disjoint_witness :
    (Entries.mk ["h1,a,b,c,d,P001".toList] ["h2,a,b,c,d,P002".toList]).good.length +
      (Entries.mk ["h1,a,b,c,d,P001".toList] ["h2,a,b,c,d,P002".toList]).bad.length =
      ([["h1,a,b,c,d,P001".toList, "h2,a,b,c,d,P002".toList]] :
        List (List Line)).flatten.length :=
  (C2_partition_total_and_disjoint
    [["h1,a,b,c,d,P001".toList, "h2,a,b,c,d,P002".toList]] ["P002".toList]
    ⟨["h1,a,b,c,d,P001".toList], ["h2,a,b,c,d,P002".toList]⟩ (by decide)).1

/-- Claim C5: with only the good output requested, the bad collection stays
empty — no flagged row is ever appended to it — and the bad output file is
never opened, created or touched. -/
theorem C5_good_only_no_bad_collected (files : List (List Line))
    (tools : List Field) (e : Entries)
    (h : filter_entries files tools true false = some e) :
    e.bad = [] ∧ (write_output e true false).2 = none := by
  obtain ⟨hg, hb⟩ := filter_entries_eq_some files tools true false e h
  constructor
  · rw [hb]
    have hpe : badPred tools true false = fun _ => false := by
      funext l
      simp [badPred]
    rw [hpe]
    exact List.filter_false _
  · simp [write_output]

/-- Witness for C5: a run over a flagged row with only good requested
collects nothing bad and leaves the bad output untouched. -/
theorem C5_good_only_no_bad_collected_witness :
    (Entries.mk [] []).bad = [] ∧
    (write_output (Entries.mk [] []) true false).2 = none :=
  C5_good_only_no_bad_collected [["h2,a,b,c,d,P002".toList]] ["P002".toList]
    ⟨[], []⟩ (by decide)

/-- Claim C6: the summary divides by the total count, so a run with both
counts zero faults with a division by zero (`none`), while any run with at
least one collected row computes `good% = 100·good/(good+bad)` and
`bad% = 100·bad/(good+bad)` without fault. -/
theorem C6_summary_division (e : Entries) :
    (e.good.length + e.bad.length = 0 → show_summary e = none) ∧
    (0 < e.good.length + e.bad.length →
      show_summary e =
        some (100 * (e.good.length : ℚ) / ((e.good.length : ℚ) + (e.bad.length : ℚ)),
              100 * (e.bad.length : ℚ) / ((e.good.length : ℚ) + (e.bad.length : ℚ)))) := by
  constructor
  · intro h0
    have hgz : e.good.length = 0 := by omega
    have hbz : e.bad.length = 0 := by omega
    simp [show_summary, pyDiv, hgz, hbz]
  · intro hpos
    have ht : ((e.good.length : ℚ) + (e.bad.length : ℚ)) ≠ 0 := by
      have hlt : (0 : ℚ) < (e.good.length : ℚ) + (e.bad.length : ℚ) := by
        exact_mod_cast hpos
      exact ne_of_gt hlt
    simp only [show_summary, pyDiv, if_neg ht, Option.some.injEq, Prod.mk.injEq]
    constructor
    · ring
    · ring

/-- Witness for C6: an empty run faults; a one-good-row run reports 100%/0%. -/
theorem C6_summary_division_witness :
    show_summary ⟨[], []⟩ = none ∧
    show_summary ⟨["x".toList], []⟩ = some (100, 0) := by
  constructor
  · exact (C6_summary_division ⟨[], []⟩).1 rfl
  · have h := (C6_summary_division ⟨["x".toList], []⟩).2 (by decide)
    rw [h]
    norm_num

/-- Claim C8: each bucket lists its rows in exactly the order they were
encountered — an order-preserving selection (sublist) of all input lines
concatenated in file-argument order — and each written output file receives
its bucket's lines in that same order. -/
theorem C8_order_preservation (files : List (List Line)) (tools : List Field)
    (g b : Bool) (e : Entries) (h : filter_entries files tools g b = some e) :
    e.good.Sublist files.flatten ∧ e.bad.Sublist files.flatten ∧
    (g = true → (write_output e g b).1 = some e.good.flatten) ∧
    (b = true → (write_output e g b).2 = some e.bad.flatten) := by
  obtain ⟨hg, hb⟩ := filter_entries_eq_some files tools g b e h
  refine ⟨?_, ?_, ?_, ?_⟩
  · rw [hg]; exact List.filter_sublist _
  · rw [hb]; exact List.filter_sublist _
  · intro hgt; simp [write_output, hgt]
  · intro hbt; simp [write_output, hbt]

/-- Witness for C8: the good bucket of a two-row run is an order-preserving
selection of the input lines. -/
theorem C8_order_preservation_witness :
    List.Sublist (["h1,a,b,c,d,P001".toList] : List Line)
      ([["h1,a,b,c,d,P001".toList, "h2,a,b,c,d,P002".toList]] :
        List (List Line)).flatten :=
  (C8_order_preservation
    [["h1,a,b,c,d,P001".toList, "h2,a,b,c,d,P002".toList]] ["P002".toList]
    true true ⟨["h1,a,b,c,d,P001".toList], ["h2,a,b,c,d,P002".toList]⟩ (by decide)).1

/-- Claim C9: every collected row is one of the raw input lines, unmodified
(terminator included, since a `Line` is the raw text), and each written
output file's content is exactly the concatenation of its bucket's raw
lines — no rewriting, reordering of fields, or whitespace changes. -/
theorem C9_byte_preservation (files : List (List Line)) (tools : List Field)
    (g b : Bool) (e : Entries) (h : filter_entries files tools g b = some e) :
    e.good ⊆ files.flatten ∧ e.bad ⊆ files.flatten ∧
    (g = true → (write_output e g b).1 = some e.good.flatten) ∧
    (b = true → (write_output e g b).2 = some e.bad.flatten) := by
  obtain ⟨hg, hb⟩ := filter_entries_eq_some files tools g b e h
  refine ⟨?_, ?_, ?_, ?_⟩
  · rw [hg]; exact (List.filter_sublist _).subset
  · rw [hb]; exact (List.filter_sublist _).subset
  · intro hgt; simp [write_output, hgt]
  · intro hbt; simp [write_output, hbt]

/-- Witness for C9: the collected bad row of a run is literally one of the
input lines. -/
theorem C9_byte_preservation_witness :
    (["h2,a,b,c,d,P002".toList] : List Line) ⊆
      ([["h1,a,b,c,d,P001".toList, "h2,a,b,c,d,P002".toList]] :
        List (List Line)).flatten :=
  (C9_byte_preservation
    [["h1,a,b,c,d,P001".toList, "h2,a,b,c,d,P002".toList]] ["P002".toList]
    true true ⟨["h1,a,b,c,d,P001".toList], ["h2,a,b,c,d,P002".toList]⟩ (by decide)).2.1

/-- Claim C10: with the good output not requested but the bad output
requested, the membership test is conjoined with the good flag, so every
row falls through to the bad branch: the bad bucket receives all input
rows, flagged or not. -/
theorem C10_all_rows_bad_when_good_unset (files : List (List Line))
    (tools : List Field) (e : Entries)
    (h : filter_entries files tools false true = some e) :
    e.good = [] ∧ e.bad = files.flatten := by
  obtain ⟨hg, hb⟩ := filter_entries_eq_some files tools false true e h
  constructor
  · rw [hg]
    have hpe : goodPred tools false = fun _ => false := by
      funext l
      simp [goodPred]
    rw [hpe]
    exact List.filter_false _
  · rw [hb]
    have hpe : badPred tools false true = fun _ => true := by
      funext l
      simp [badPred, goodPred]
    rw [hpe]
    exact List.filter_true _

/-- Witness for C10: with only bad requested, an unflagged row still lands
in the bad bucket. -/
theorem C10_all_rows_bad_when_good_unset_witness :
    (Entries.mk [] ["h1,a,b,c,d,P001".toList]).good = [] ∧
    (Entries.mk [] ["h1,a,b,c,d,P001".toList]).bad =
      ([["h1,a,b,c,d,P001".toList]] : List (List Line)).flatten :=
  C10_all_rows_bad_when_good_unset [["h1,a,b,c,d,P001".toList]] ["P002".toList]
    ⟨[], ["h1,a,b,c,d,P001".toList]⟩ (by decide)

end Nsrlex
